import Mathlib

/-!
Verification of the country relocation recommendation engine.

The engine scores a fixed collection of country records against
user-supplied weighted criteria and minimum-requirement thresholds,
filters, ranks descending by total score and truncates to a requested
count.  Numeric metric values and weights are modelled as rationals.
Python dictionaries (weights, minimum requirements, score breakdowns)
are modelled as association lists in insertion order; dictionary
assignment is modelled by in-place update-or-append, and dictionary
lookup by first-match lookup, matching Python dict semantics (a Python
dict never holds a duplicate key).  Python list slicing with an integer
stop (including negative stops) is modelled by pySlice, and the stable
sort of list.sort by the stable List.mergeSort.
-/

namespace Relocation

/-- Record of one country, mirroring the CountryData dataclass:
ten numeric attributes plus a name and a categorical community size. -/
structure CountryData where
  name : String
  cost_of_living_index : ℚ
  quality_of_life_index : ℚ
  safety_index : ℚ
  healthcare_index : ℚ
  climate_score : ℚ
  job_market_score : ℚ
  english_proficiency : ℚ
  visa_ease : ℚ
  tax_friendliness : ℚ
  internet_speed : ℚ
  expat_community_size : String
  deriving DecidableEq, Repr

/-- Attribute lookup on a country by metric name, modelling the
hasattr/getattr probing of the source restricted to the ten numeric
metric attributes; any other name is reported absent. -/
def CountryData.getMetric (c : CountryData) (criterion : String) : Option ℚ :=
  if criterion = "cost_of_living_index" then some c.cost_of_living_index
  else if criterion = "quality_of_life_index" then some c.quality_of_life_index
  else if criterion = "safety_index" then some c.safety_index
  else if criterion = "healthcare_index" then some c.healthcare_index
  else if criterion = "climate_score" then some c.climate_score
  else if criterion = "job_market_score" then some c.job_market_score
  else if criterion = "english_proficiency" then some c.english_proficiency
  else if criterion = "visa_ease" then some c.visa_ease
  else if criterion = "tax_friendliness" then some c.tax_friendliness
  else if criterion = "internet_speed" then some c.internet_speed
  else none

/-- User criteria, mirroring the UserCriteria dataclass.  The two
mappings are association lists in insertion order. -/
structure UserCriteria where
  weights : List (String × ℚ)
  min_requirements : List (String × ℚ)
  preferred_regions : List String
  deal_breakers : List String
  deriving DecidableEq, Repr

/-- The default weight distribution substituted by UserCriteria
construction when the supplied weights mapping is empty. -/
def defaultWeights : List (String × ℚ) :=
  [("cost_of_living_index", 15/100),
   ("quality_of_life_index", 20/100),
   ("safety_index", 15/100),
   ("healthcare_index", 10/100),
   ("climate_score", 10/100),
   ("job_market_score", 10/100),
   ("english_proficiency", 5/100),
   ("visa_ease", 10/100),
   ("tax_friendliness", 5/100)]

/-- Construction of a UserCriteria, including the post-init step of the
source: an empty weights mapping is replaced by the default weights. -/
def UserCriteria.make (weights min_requirements : List (String × ℚ))
    (preferred_regions deal_breakers : List String) : UserCriteria :=
  { weights := if weights.isEmpty then defaultWeights else weights
    min_requirements := min_requirements
    preferred_regions := preferred_regions
    deal_breakers := deal_breakers }

/-- Lookup in an association list modelling Python dict indexing and
membership: the value at the first matching key, if any. -/
def dictGet (d : List (String × ℚ)) (k : String) : Option ℚ :=
  match d with
  | [] => none
  | (k2, v2) :: rest => if k2 = k then some v2 else dictGet rest k

/-- Update-or-append modelling Python dict assignment d[k] = v: the
first entry with key k is overwritten in place, otherwise (k, v) is
appended at the end. -/
def dictInsert (d : List (String × ℚ)) (k : String) (v : ℚ) : List (String × ℚ) :=
  match d with
  | [] => [(k, v)]
  | (k2, v2) :: rest =>
    if k2 = k then (k, v) :: rest else (k2, v2) :: dictInsert rest k v

/-- The minimum-requirement gate of calculate_score for one metric:
true when the mapping holds this criterion and the raw value is
strictly below the threshold. -/
def belowMin (min_requirements : List (String × ℚ)) (criterion : String)
    (raw_value : ℚ) : Bool :=
  match dictGet min_requirements criterion with
  | some threshold => raw_value < threshold
  | none => false

/-- The loop of calculate_score over the weight pairs, carrying the
running total and the breakdown dict.  An absent metric is skipped; a
metric failing its minimum requirement returns (0, empty) immediately;
otherwise the weighted normalized value (cost of living inverted as
100 - raw) is recorded and accumulated. -/
def scoreLoop (country : CountryData) (min_requirements : List (String × ℚ)) :
    List (String × ℚ) → ℚ → List (String × ℚ) → ℚ × List (String × ℚ)
  | [], total_score, scores => (total_score, scores)
  | (criterion, weight) :: rest, total_score, scores =>
    match country.getMetric criterion with
    | none => scoreLoop country min_requirements rest total_score scores
    | some raw_value =>
      if belowMin min_requirements criterion raw_value then (0, [])
      else
        let normalized_value :=
          if criterion = "cost_of_living_index" then 100 - raw_value else raw_value
        let weighted_score := normalized_value * weight
        scoreLoop country min_requirements rest (total_score + weighted_score)
          (dictInsert scores criterion weighted_score)

/-- calculate_score: weighted score of one country against the
criteria, returning the total and the per-criterion breakdown. -/
def calculate_score (country : CountryData) (criteria : UserCriteria) :
    ℚ × List (String × ℚ) :=
  scoreLoop country criteria.min_requirements criteria.weights 0 []

/-- The per-country test of filter_countries: every minimum-requirement
pair whose metric the country possesses must be met; an absent metric
never fails. -/
def meets_requirements (country : CountryData)
    (min_requirements : List (String × ℚ)) : Bool :=
  min_requirements.all fun p =>
    match country.getMetric p.1 with
    | none => true
    | some v => !(decide (v < p.2))

/-- filter_countries: the sublist of the collection meeting all
minimum requirements. -/
def filter_countries (countries : List CountryData) (criteria : UserCriteria) :
    List CountryData :=
  countries.filter fun c => meets_requirements c criteria.min_requirements

/-- The scored candidate list of recommend_countries before sorting and
truncation: each filtered country is scored, and only countries with a
strictly positive total score are kept. -/
def scoredCountries (countries : List CountryData) (criteria : UserCriteria) :
    List (CountryData × ℚ × List (String × ℚ)) :=
  (filter_countries countries criteria).filterMap fun country =>
    let sb := calculate_score country criteria
    if 0 < sb.1 then some (country, sb.1, sb.2) else none

/-- The comparison used by the descending stable sort of
recommend_countries: x may precede y when the score of x is at least
the score of y. -/
def scoreLE (x y : CountryData × ℚ × List (String × ℚ)) : Bool :=
  decide (y.2.1 ≤ x.2.1)

/-- The scored candidates sorted descending by total score with the
stable sort of the source. -/
def sortedScored (countries : List CountryData) (criteria : UserCriteria) :
    List (CountryData × ℚ × List (String × ℚ)) :=
  (scoredCountries countries criteria).mergeSort scoreLE

/-- Python list slicing l[:n] with an integer stop: a nonnegative stop
takes the first n elements; a negative stop drops the last |n|
elements (empty when |n| exceeds the length). -/
def pySlice {α : Type} (l : List α) (n : Int) : List α :=
  if 0 ≤ n then l.take n.toNat else l.take ((l.length + n).toNat)

/-- recommend_countries: filter, score, keep strictly positive totals,
sort descending, truncate to top_n by Python slicing. -/
def recommend_countries (countries : List CountryData) (criteria : UserCriteria)
    (top_n : Int) : List (CountryData × ℚ × List (String × ℚ)) :=
  pySlice (sortedScored countries criteria) top_n

/-- Seed record for Portugal. -/
def portugal : CountryData :=
  ⟨"Portugal", 45, 75, 82, 72, 85, 60, 65, 75, 60, 95, "Large"⟩

/-- Seed record for Spain. -/
def spain : CountryData :=
  ⟨"Spain", 50, 78, 80, 78, 88, 58, 60, 72, 55, 110, "Large"⟩

/-- Seed record for Thailand. -/
def thailand : CountryData :=
  ⟨"Thailand", 30, 68, 70, 65, 75, 55, 50, 85, 70, 85, "Large"⟩

/-- Seed record for Germany. -/
def germany : CountryData :=
  ⟨"Germany", 65, 85, 85, 88, 65, 82, 70, 60, 45, 120, "Large"⟩

/-- Seed record for Mexico. -/
def mexico : CountryData :=
  ⟨"Mexico", 35, 65, 55, 60, 80, 60, 45, 90, 65, 70, "Large"⟩

/-- Seed record for Canada. -/
def canada : CountryData :=
  ⟨"Canada", 70, 88, 88, 85, 60, 80, 95, 55, 50, 130, "Large"⟩

/-- Seed record for Australia. -/
def australia : CountryData :=
  ⟨"Australia", 75, 90, 87, 87, 85, 78, 100, 50, 55, 110, "Large"⟩

/-- Seed record for Estonia. -/
def estonia : CountryData :=
  ⟨"Estonia", 48, 72, 82, 70, 55, 72, 75, 80, 75, 150, "Medium"⟩

/-- Seed record for New Zealand. -/
def new_zealand : CountryData :=
  ⟨"New Zealand", 72, 87, 90, 82, 82, 70, 100, 52, 58, 105, "Medium"⟩

/-- Seed record for Costa Rica. -/
def costa_rica : CountryData :=
  ⟨"Costa Rica", 40, 70, 68, 72, 88, 58, 52, 88, 68, 75, "Large"⟩

/-- Seed record for Singapore. -/
def singapore : CountryData :=
  ⟨"Singapore", 85, 92, 95, 92, 70, 88, 85, 65, 80, 200, "Large"⟩

/-- Seed record for the Czech Republic. -/
def czech_republic : CountryData :=
  ⟨"Czech Republic", 42, 74, 80, 75, 68, 70, 65, 70, 65, 115, "Medium"⟩

/-- The fixed seed database the agent is constructed with. -/
def initialCountries : List CountryData :=
  [portugal, spain, thailand, germany, mexico, canada, australia,
   estonia, new_zealand, costa_rica, singapore, czech_republic]

/-- Criteria with a safety threshold of 95, used as a concrete instance:
only Singapore meets it. -/
def safetyCrit : UserCriteria :=
  UserCriteria.make [] [("safety_index", 95)] [] []

/-- Criteria weighting safety negatively, used as a concrete instance:
every total score comes out negative. -/
def negCrit : UserCriteria :=
  UserCriteria.make [("safety_index", -1)] [] [] []

/-- Criteria weighting safety alone with weight one, used as a concrete
instance: every country scores its positive safety index. -/
def oneCrit : UserCriteria :=
  UserCriteria.make [("safety_index", 1)] [] [] []

/-- Criteria weighting cost of living alone with weight one half, used
as a concrete instance for the inversion property. -/
def colCrit : UserCriteria :=
  UserCriteria.make [("cost_of_living_index", 1/2)] [] [] []

/-- Criteria with the default weights and no minimum requirements. -/
def defCrit : UserCriteria :=
  UserCriteria.make [] [] [] []

theorem pySlice_sublist {α : Type} (l : List α) (n : Int) : (pySlice l n).Sublist l := by
  unfold pySlice
  split <;> exact List.take_sublist _ _

theorem mem_dictInsert {e : String × ℚ} :
    ∀ {d : List (String × ℚ)} {k : String} {v : ℚ},
      e ∈ dictInsert d k v → e = (k, v) ∨ e ∈ d := by
  intro d
  induction d with
  | nil => intro k v h; simp [dictInsert] at h; exact Or.inl h
  | cons hd tl ih =>
    intro k v h
    unfold dictInsert at h
    by_cases hk : hd.1 = k
    · simp only [hk, if_pos rfl] at h
      rcases List.mem_cons.mp h with h1 | h1
      · exact Or.inl h1
      · exact Or.inr (List.mem_cons_of_mem _ h1)
    · simp only [if_neg hk] at h
      rcases List.mem_cons.mp h with h1 | h1
      · exact Or.inr (h1 ▸ List.mem_cons_self _ _)
      · rcases ih h1 with h2 | h2
        · exact Or.inl h2
        · exact Or.inr (List.mem_cons_of_mem _ h2)

theorem dictGet_mem : ∀ {d : List (String × ℚ)} {k : String} {v : ℚ},
    dictGet d k = some v → (k, v) ∈ d := by
  intro d
  induction d with
  | nil => intro k v h; simp [dictGet] at h
  | cons hd tl ih =>
    intro k v h
    unfold dictGet at h
    by_cases hk : hd.1 = k
    · rw [if_pos hk] at h
      obtain ⟨a, b⟩ := hd
      simp only at hk h
      subst hk
      rw [Option.some.injEq] at h
      subst h
      exact List.mem_cons_self _ _
    · rw [if_neg hk] at h
      exact List.mem_cons_of_mem _ (ih h)

theorem mem_filter_countries {countries : List CountryData} {criteria : UserCriteria}
    {c : CountryData} :
    c ∈ filter_countries countries criteria ↔
      c ∈ countries ∧ meets_requirements c criteria.min_requirements = true := by
  unfold filter_countries
  exact List.mem_filter

theorem meets_requirements_eq_false {c : CountryData} {mr : List (String × ℚ)}
    {m : String} {t v : ℚ} (hreq : (m, t) ∈ mr) (hval : c.getMetric m = some v)
    (hlt : v < t) : meets_requirements c mr = false := by
  unfold meets_requirements
  rw [List.all_eq_false]
  refine ⟨(m, t), hreq, ?_⟩
  simp [hval, hlt]

theorem mem_scoredCountries {countries : List CountryData} {criteria : UserCriteria}
    {c : CountryData} {s : ℚ} {br : List (String × ℚ)} :
    (c, s, br) ∈ scoredCountries countries criteria ↔
      c ∈ filter_countries countries criteria ∧
        calculate_score c criteria = (s, br) ∧ 0 < s := by
  simp only [scoredCountries, List.mem_filterMap]
  constructor
  · rintro ⟨a, ha, hfa⟩
    by_cases hpos : 0 < (calculate_score a criteria).1
    · simp only [if_pos hpos] at hfa
      injection hfa with h1
      injection h1 with hac h1
      injection h1 with hs hbr
      subst hac
      exact ⟨ha, Prod.ext hs hbr, hs ▸ hpos⟩
    · simp only [if_neg hpos] at hfa
      exact Option.noConfusion hfa
  · rintro ⟨hc, hcalc, hpos⟩
    exact ⟨c, hc, by simp [hcalc, hpos]⟩

theorem mem_sortedScored {countries : List CountryData} {criteria : UserCriteria}
    {x : CountryData × ℚ × List (String × ℚ)} :
    x ∈ sortedScored countries criteria ↔ x ∈ scoredCountries countries criteria := by
  unfold sortedScored
  exact List.mem_mergeSort

/-- C1: an entity whose raw value for some metric named in the
minimum-requirements mapping lies strictly below the threshold never
appears in the output of recommend_countries, for any topN. -/
theorem below_threshold_never_recommended
    (countries : List CountryData) (criteria : UserCriteria) (E : CountryData)
    (m : String) (t v : ℚ) (topN : Int) (s : ℚ) (br : List (String × ℚ))
    (_hmem : E ∈ countries) (hreq : (m, t) ∈ criteria.min_requirements)
    (hval : E.getMetric m = some v) (hlt : v < t) :
    (E, s, br) ∉ recommend_countries countries criteria topN := by
  intro hcontra
  have h1 : (E, s, br) ∈ sortedScored countries criteria :=
    (pySlice_sublist _ _).subset hcontra
  have h2 := mem_sortedScored.mp h1
  have h3 := (mem_scoredCountries.mp h2).1
  have h4 := (mem_filter_countries.mp h3).2
  rw [meets_requirements_eq_false hreq hval hlt] at h4
  exact Bool.false_ne_true h4

/-- Witness for C1: Portugal (safety 82) is excluded for any topN under
a safety threshold of 95. -/
theorem below_threshold_never_recommended_witness :
    (portugal, (0 : ℚ), ([] : List (String × ℚ))) ∉
      recommend_countries initialCountries safetyCrit 5 :=
  below_threshold_never_recommended initialCountries safetyCrit portugal
    "safety_index" 95 82 5 0 []
    (by simp [initialCountries])
    (by simp [safetyCrit, UserCriteria.make])
    (by simp +decide [CountryData.getMetric, portugal])
    (by norm_num)

/-- C2 counterexample: with a negative weight on safety, Portugal
survives filtering with the nonzero total -82, yet the candidate list
kept before sorting is empty, because the code keeps only strictly
positive totals rather than discarding exactly the zero totals. -/
theorem negative_total_discarded :
    (calculate_score portugal negCrit).1 = -82 ∧
      portugal ∈ filter_countries initialCountries negCrit ∧
      scoredCountries initialCountries negCrit = [] := by
  refine ⟨?_, ?_, ?_⟩
  · norm_num +decide [calculate_score, scoreLoop, negCrit, UserCriteria.make, belowMin,
      dictGet, dictInsert, portugal, CountryData.getMetric]
  · norm_num +decide [filter_countries, initialCountries, meets_requirements, negCrit,
      UserCriteria.make, CountryData.getMetric]
  · norm_num +decide [scoredCountries, filter_countries, initialCountries,
      meets_requirements, calculate_score, scoreLoop, negCrit, UserCriteria.make, belowMin,
      dictGet, dictInsert, portugal, spain, thailand, germany, mexico, canada, australia,
      estonia, new_zealand, costa_rica, singapore, czech_republic, CountryData.getMetric]

/-- C2 (amended): after filtering and scoring, exactly the entities
with a strictly positive total score are retained in the candidate
list before sorting and truncation; a total of zero or below (negative
totals arise from caller-supplied negative weights) is discarded. -/
theorem positive_total_characterizes_candidates
    (countries : List CountryData) (criteria : UserCriteria)
    (c : CountryData) (s : ℚ) (br : List (String × ℚ)) :
    (c, s, br) ∈ scoredCountries countries criteria ↔
      c ∈ filter_countries countries criteria ∧
        calculate_score c criteria = (s, br) ∧ 0 < s :=
  mem_scoredCountries

/-- The scored candidate list under the safety-only criteria has one
entry per seed country. -/
theorem scored_oneCrit_length :
    (scoredCountries initialCountries oneCrit).length = 12 := by
  norm_num +decide [scoredCountries, filter_countries, initialCountries,
    meets_requirements, calculate_score, scoreLoop, oneCrit, UserCriteria.make, belowMin,
    dictGet, dictInsert, portugal, spain, thailand, germany, mexico, canada, australia,
    estonia, new_zealand, costa_rica, singapore, czech_republic, CountryData.getMetric]

/-- Recommending with topN = -1 returns eleven of the twelve
candidates: Python slicing drops only the last element. -/
theorem recommend_neg_one_length :
    (recommend_countries initialCountries oneCrit (-1)).length = 11 := by
  unfold recommend_countries pySlice
  rw [if_neg (by norm_num : ¬ (0 : Int) ≤ -1)]
  have hlen : (sortedScored initialCountries oneCrit).length = 12 := by
    unfold sortedScored
    rw [List.length_mergeSort]
    exact scored_oneCrit_length
  simp only [List.length_take, hlen]
  omega

/-- C3 counterexample: topN = -1 is a nonpositive topN for which
recommend_countries returns a nonempty sequence of eleven entries. -/
theorem negative_topn_not_empty :
    ((-1 : Int) ≤ 0) ∧
      (recommend_countries initialCountries oneCrit (-1)).length = 11 :=
  ⟨by norm_num, recommend_neg_one_length⟩

/-- C3 (amended): topN = 0 yields an empty result, and a negative topN
follows Python slice semantics, dropping the last |topN| candidates,
so the result is empty only when |topN| is at least the number of
candidates. -/
theorem nonpositive_topn_length
    (countries : List CountryData) (criteria : UserCriteria) (topN : Int)
    (h : topN ≤ 0) :
    (recommend_countries countries criteria topN).length =
      if topN = 0 then 0
      else (((scoredCountries countries criteria).length : Int) + topN).toNat := by
  unfold recommend_countries pySlice
  have hlen : (sortedScored countries criteria).length =
      (scoredCountries countries criteria).length := by
    unfold sortedScored
    rw [List.length_mergeSort]
  rcases eq_or_lt_of_le h with rfl | hlt
  · simp
  · rw [if_neg (by omega : ¬ (0 : Int) ≤ topN), if_neg (by omega : ¬ topN = 0)]
    simp only [List.length_take, hlen]
    omega

/-- Witness for C3 (amended) at topN = -1 on the seed data. -/
theorem nonpositive_topn_length_witness :
    (recommend_countries initialCountries oneCrit (-1)).length =
      if (-1 : Int) = 0 then 0
      else (((scoredCountries initialCountries oneCrit).length : Int) + (-1)).toNat :=
  nonpositive_topn_length initialCountries oneCrit (-1) (by norm_num)

theorem scoreLoop_fail (country : CountryData) (mr : List (String × ℚ))
    {m : String} (wt : ℚ) {v t : ℚ}
    (hval : country.getMetric m = some v)
    (hthr : dictGet mr m = some t) (hlt : v < t) :
    ∀ w1 : List (String × ℚ),
      (∀ p ∈ w1, ∀ u : ℚ, country.getMetric p.1 = some u →
        belowMin mr p.1 u = false) →
      ∀ (w2 : List (String × ℚ)) (t0 : ℚ) (s0 : List (String × ℚ)),
        scoreLoop country mr (w1 ++ (m, wt) :: w2) t0 s0 = (0, []) := by
  have hb : belowMin mr m v = true := by
    unfold belowMin
    rw [hthr]
    simpa using hlt
  intro w1
  induction w1 with
  | nil =>
    intro _ w2 t0 s0
    simp only [List.nil_append, scoreLoop, hval, hb, if_true]
  | cons p rest ih =>
    intro hpre w2 t0 s0
    obtain ⟨cr, w⟩ := p
    cases hgm : country.getMetric cr with
    | none =>
      simp only [List.cons_append, scoreLoop, hgm]
      exact ih (fun q hq => hpre q (List.mem_cons_of_mem _ hq)) w2 t0 s0
    | some u =>
      have hnb : belowMin mr cr u = false :=
        hpre (cr, w) (List.mem_cons_self _ _) u hgm
      simp only [List.cons_append, scoreLoop, hgm, hnb, if_false, Bool.false_eq_true]
      exact ih (fun q hq => hpre q (List.mem_cons_of_mem _ hq)) w2 _ _

/-- C4: the scoring loop walks the weights in iteration order and, at
the first weighted metric the entity possesses whose raw value lies
strictly below a present threshold, returns (0, empty) at once: the
contributions already accumulated are discarded and the weight pairs
after the failing one (quantified here as an arbitrary tail) never
influence the result. -/
theorem score_short_circuits_on_first_failure
    (country : CountryData) (criteria : UserCriteria)
    (w1 w2 : List (String × ℚ)) (m : String) (wt v t : ℚ)
    (hw : criteria.weights = w1 ++ (m, wt) :: w2)
    (hpre : ∀ p ∈ w1, ∀ u : ℚ, country.getMetric p.1 = some u →
      belowMin criteria.min_requirements p.1 u = false)
    (hval : country.getMetric m = some v)
    (hthr : dictGet criteria.min_requirements m = some t)
    (hlt : v < t) :
    calculate_score country criteria = (0, []) := by
  unfold calculate_score
  rw [hw]
  exact scoreLoop_fail country _ wt hval hthr hlt w1 hpre w2 0 []

/-- Criteria that weight quality of life, then safety, then cost of
living, with a safety threshold of 95: a concrete instance on which
the scoring loop fails at the second weight pair. -/
def gateCrit : UserCriteria :=
  UserCriteria.make
    [("quality_of_life_index", 1/2), ("safety_index", 1/10), ("cost_of_living_index", 9)]
    [("safety_index", 95)] [] []

/-- Witness for C4: Portugal accumulates a quality-of-life
contribution, then fails the safety threshold and scores (0, empty). -/
theorem score_short_circuits_on_first_failure_witness :
    calculate_score portugal gateCrit = (0, []) := by
  refine score_short_circuits_on_first_failure portugal gateCrit
    [("quality_of_life_index", 1/2)] [("cost_of_living_index", 9)]
    "safety_index" (1/10) 82 95 ?_ ?_ ?_ ?_ ?_
  · simp +decide [gateCrit, UserCriteria.make]
  · intro p hp u hu
    simp only [List.mem_singleton] at hp
    subst hp
    simp only [CountryData.getMetric, portugal] at hu
    norm_num +decide at hu
    subst hu
    simp +decide [belowMin, dictGet, gateCrit, UserCriteria.make]
  · simp +decide [CountryData.getMetric, portugal]
  · simp +decide [dictGet, gateCrit, UserCriteria.make]
  · norm_num

theorem scoreLE_trans : ∀ a b c : CountryData × ℚ × List (String × ℚ),
    scoreLE a b → scoreLE b c → scoreLE a c := by
  intro a b c hab hbc
  simp only [scoreLE, decide_eq_true_eq] at *
  exact le_trans hbc hab

theorem scoreLE_total : ∀ a b : CountryData × ℚ × List (String × ℚ),
    scoreLE a b || scoreLE b a := by
  intro a b
  rcases le_total a.2.1 b.2.1 with h | h <;> simp [scoreLE, h]

/-- C5 counterexample: at topN = -1 the output holds eleven entries,
which is not at most topN. -/
theorem topn_bound_fails_for_negative_topn :
    (recommend_countries initialCountries oneCrit (-1)).length = 11 ∧
      ¬ (((recommend_countries initialCountries oneCrit (-1)).length : Int) ≤ -1) := by
  refine ⟨recommend_neg_one_length, ?_⟩
  rw [recommend_neg_one_length]
  norm_num

/-- C5 (amended): the output of recommend_countries is ordered
descending by total score for every topN, and holds at most topN
entries whenever topN is nonnegative. -/
theorem recommend_sorted_and_truncated
    (countries : List CountryData) (criteria : UserCriteria) (topN : Int) :
    (recommend_countries countries criteria topN).Pairwise
        (fun x y => y.2.1 ≤ x.2.1) ∧
      (0 ≤ topN →
        ((recommend_countries countries criteria topN).length : Int) ≤ topN) := by
  constructor
  · have hsorted : (sortedScored countries criteria).Pairwise
        (fun a b => scoreLE a b = true) :=
      List.sorted_mergeSort scoreLE_trans scoreLE_total _
    have hslice := List.Pairwise.sublist
      (pySlice_sublist (sortedScored countries criteria) topN) hsorted
    exact hslice.imp fun h => by
      simpa only [scoreLE, decide_eq_true_eq] using h
  · intro hpos
    unfold recommend_countries pySlice
    rw [if_pos hpos]
    have h1 : (List.take topN.toNat (sortedScored countries criteria)).length ≤
        topN.toNat := by
      rw [List.length_take]
      omega
    omega

/-- Witness for C5 (amended): at topN = 3 on the seed data the length
bound holds. -/
theorem recommend_sorted_and_truncated_witness :
    ((recommend_countries initialCountries oneCrit 3).length : Int) ≤ 3 :=
  (recommend_sorted_and_truncated initialCountries oneCrit 3).2 (by norm_num)

theorem scoreLoop_mem_breakdown (country : CountryData) (mr : List (String × ℚ)) :
    ∀ (ws : List (String × ℚ)) (t0 : ℚ) (s0 : List (String × ℚ)) (e : String × ℚ),
      e ∈ (scoreLoop country mr ws t0 s0).2 →
      e ∈ s0 ∨ ∃ v w, country.getMetric e.1 = some v ∧ (e.1, w) ∈ ws ∧
        e.2 = (if e.1 = "cost_of_living_index" then 100 - v else v) * w := by
  intro ws
  induction ws with
  | nil =>
    intro t0 s0 e he
    exact Or.inl he
  | cons p rest ih =>
    obtain ⟨cr, w⟩ := p
    intro t0 s0 e he
    cases hgm : country.getMetric cr with
    | none =>
      simp only [scoreLoop, hgm] at he
      rcases ih _ _ _ he with h | ⟨v, w2, h1, h2, h3⟩
      · exact Or.inl h
      · exact Or.inr ⟨v, w2, h1, List.mem_cons_of_mem _ h2, h3⟩
    | some raw =>
      by_cases hb : belowMin mr cr raw
      · simp only [scoreLoop, hgm, hb, if_true] at he
        exact absurd he (List.not_mem_nil e)
      · simp only [scoreLoop, hgm, hb, if_false, Bool.false_eq_true] at he
        rcases ih _ _ _ he with h | ⟨v, w2, h1, h2, h3⟩
        · rcases mem_dictInsert h with h2 | h2
          · subst h2
            exact Or.inr ⟨raw, w, hgm, List.mem_cons_self _ _, rfl⟩
          · exact Or.inl h2
        · exact Or.inr ⟨v, w2, h1, List.mem_cons_of_mem _ h2, h3⟩

/-- C6: every entry of the breakdown returned by calculate_score is
the weighted normalized value of a weighted metric the entity
possesses, where cost of living is normalized to 100 minus the raw
value and every other metric keeps its raw value. -/
theorem breakdown_entry_normalization
    (country : CountryData) (criteria : UserCriteria) (m : String) (x : ℚ)
    (hmem : (m, x) ∈ (calculate_score country criteria).2) :
    ∃ v w, country.getMetric m = some v ∧ (m, w) ∈ criteria.weights ∧
      x = (if m = "cost_of_living_index" then 100 - v else v) * w := by
  have h := scoreLoop_mem_breakdown country criteria.min_requirements
    criteria.weights 0 [] (m, x) hmem
  rcases h with h | h
  · exact absurd h (List.not_mem_nil _)
  · exact h

/-- Witness for C6, the concrete scenario of the claim: Thailand has
cost of living 30; under weight one half on that metric and no
threshold its breakdown entry is exactly (100 - 30) * (1/2) = 35. -/
theorem breakdown_entry_normalization_witness :
    ("cost_of_living_index", (35 : ℚ)) ∈ (calculate_score thailand colCrit).2 ∧
      ∃ v w, thailand.getMetric "cost_of_living_index" = some v ∧
        ("cost_of_living_index", w) ∈ colCrit.weights ∧
        (35 : ℚ) =
          (if "cost_of_living_index" = "cost_of_living_index" then 100 - v else v) * w := by
  have h : ("cost_of_living_index", (35 : ℚ)) ∈ (calculate_score thailand colCrit).2 := by
    norm_num +decide [calculate_score, scoreLoop, colCrit, UserCriteria.make, belowMin,
      dictGet, dictInsert, thailand, CountryData.getMetric]
  exact ⟨h, breakdown_entry_normalization thailand colCrit _ _ h⟩

/-- C7: constructing criteria with an empty weights mapping installs
the default distribution over exactly the nine standard metrics, whose
weights sum to exactly one; a nonempty weights mapping is kept
unchanged. -/
theorem default_weights_substitution
    (mr : List (String × ℚ)) (pr db : List String) :
    (UserCriteria.make [] mr pr db).weights = defaultWeights ∧
      defaultWeights.map Prod.fst =
        ["cost_of_living_index", "quality_of_life_index", "safety_index",
         "healthcare_index", "climate_score", "job_market_score",
         "english_proficiency", "visa_ease", "tax_friendliness"] ∧
      (defaultWeights.map Prod.snd).sum = 1 ∧
      ∀ w : List (String × ℚ), w ≠ [] → (UserCriteria.make w mr pr db).weights = w := by
  refine ⟨rfl, rfl, by norm_num [defaultWeights], ?_⟩
  intro w hw
  unfold UserCriteria.make
  simp [List.isEmpty_iff, hw]

/-- Witness for C7: with no supplied weights the defaults are used,
and a nonempty singleton weights mapping is kept as given. -/
theorem default_weights_substitution_witness :
    (UserCriteria.make [] [] [] []).weights = defaultWeights ∧
      (UserCriteria.make [("safety_index", (1 : ℚ))] [] [] []).weights =
        [("safety_index", (1 : ℚ))] :=
  ⟨(default_weights_substitution [] [] []).1,
   (default_weights_substitution [] [] []).2.2.2 _ (by simp)⟩

/-- Variant of the scoring loop with the per-metric minimum-requirement
gate removed, kept to state that the gate embedded in the Scorer is
redundant in effect once the Filter has run: on every entity surviving
filter_countries the gated and ungated scorers agree. -/
def scoreLoopNoGate (country : CountryData) :
    List (String × ℚ) → ℚ → List (String × ℚ) → ℚ × List (String × ℚ)
  | [], total_score, scores => (total_score, scores)
  | (criterion, weight) :: rest, total_score, scores =>
    match country.getMetric criterion with
    | none => scoreLoopNoGate country rest total_score scores
    | some raw_value =>
      let normalized_value :=
        if criterion = "cost_of_living_index" then 100 - raw_value else raw_value
      let weighted_score := normalized_value * weight
      scoreLoopNoGate country rest (total_score + weighted_score)
        (dictInsert scores criterion weighted_score)

/-- Scorer without the embedded threshold gate, the comparison point
for the redundancy statement. -/
def calculate_score_nogate (country : CountryData) (criteria : UserCriteria) :
    ℚ × List (String × ℚ) :=
  scoreLoopNoGate country criteria.weights 0 []

theorem belowMin_false_of_meets (c : CountryData) (mr : List (String × ℚ))
    (hmr : meets_requirements c mr = true) (m : String) (v : ℚ)
    (hv : c.getMetric m = some v) : belowMin mr m v = false := by
  unfold belowMin
  cases ht : dictGet mr m with
  | none => rfl
  | some t =>
    have hmem := dictGet_mem ht
    unfold meets_requirements at hmr
    have h2 := List.all_eq_true.mp hmr (m, t) hmem
    simp only [hv] at h2
    simpa using h2

theorem scoreLoop_eq_noGate (country : CountryData) (mr : List (String × ℚ)) :
    ∀ (ws : List (String × ℚ)) (t0 : ℚ) (s0 : List (String × ℚ)),
      (∀ p ∈ ws, ∀ v : ℚ, country.getMetric p.1 = some v →
        belowMin mr p.1 v = false) →
      scoreLoop country mr ws t0 s0 = scoreLoopNoGate country ws t0 s0 := by
  intro ws
  induction ws with
  | nil => intro t0 s0 _; rfl
  | cons p rest ih =>
    obtain ⟨cr, w⟩ := p
    intro t0 s0 hok
    cases hgm : country.getMetric cr with
    | none =>
      simp only [scoreLoop, scoreLoopNoGate, hgm]
      exact ih _ _ fun q hq => hok q (List.mem_cons_of_mem _ hq)
    | some raw =>
      have hnb : belowMin mr cr raw = false :=
        hok (cr, w) (List.mem_cons_self _ _) raw hgm
      simp only [scoreLoop, scoreLoopNoGate, hgm, hnb, if_false, Bool.false_eq_true]
      exact ih _ _ fun q hq => hok q (List.mem_cons_of_mem _ hq)

/-- C8: on an entity that already passed filter_countries, the
threshold gate inside calculate_score never triggers: the gated scorer
agrees with the gate-free scorer, and no weighted metric the entity
possesses is below its threshold. -/
theorem gate_redundant_after_filter
    (countries : List CountryData) (criteria : UserCriteria) (E : CountryData)
    (hE : E ∈ filter_countries countries criteria) :
    calculate_score E criteria = calculate_score_nogate E criteria ∧
      ∀ p ∈ criteria.weights, ∀ v : ℚ, E.getMetric p.1 = some v →
        belowMin criteria.min_requirements p.1 v = false := by
  have hmr := (mem_filter_countries.mp hE).2
  have hok : ∀ p ∈ criteria.weights, ∀ v : ℚ, E.getMetric p.1 = some v →
      belowMin criteria.min_requirements p.1 v = false :=
    fun p _ v hv => belowMin_false_of_meets E _ hmr p.1 v hv
  exact ⟨scoreLoop_eq_noGate E _ criteria.weights 0 [] hok, hok⟩

/-- Witness for C8: Portugal passes the empty minimum requirements of
the default criteria and the two scorers agree on it. -/
theorem gate_redundant_after_filter_witness :
    calculate_score portugal defCrit = calculate_score_nogate portugal defCrit :=
  (gate_redundant_after_filter initialCountries defCrit portugal
    (by simp [filter_countries, meets_requirements, defCrit, UserCriteria.make,
      initialCountries])).1

theorem dictInsert_not_mem {d : List (String × ℚ)} {k : String} (v : ℚ)
    (h : k ∉ d.map Prod.fst) : dictInsert d k v = d ++ [(k, v)] := by
  induction d with
  | nil => rfl
  | cons hd tl ih =>
    simp only [List.map_cons, List.mem_cons] at h
    push_neg at h
    unfold dictInsert
    rw [if_neg (Ne.symm h.1), ih h.2]
    rfl

/-- True when some weighted metric the country possesses has a raw
value strictly below a present threshold, so that the scoring loop
takes its disqualification branch. -/
def disqualifies (country : CountryData) (criteria : UserCriteria) : Bool :=
  criteria.weights.any fun p =>
    match country.getMetric p.1 with
    | some v => belowMin criteria.min_requirements p.1 v
    | none => false

theorem scoreLoop_sum (country : CountryData) (mr : List (String × ℚ)) :
    ∀ (ws : List (String × ℚ)) (t0 : ℚ) (s0 : List (String × ℚ)),
      (∀ p ∈ ws, p.1 ∉ s0.map Prod.fst) → (ws.map Prod.fst).Nodup →
      (s0.map Prod.snd).sum = t0 →
      ((scoreLoop country mr ws t0 s0).2.map Prod.snd).sum =
        (scoreLoop country mr ws t0 s0).1 := by
  intro ws
  induction ws with
  | nil =>
    intro t0 s0 _ _ hsum
    exact hsum
  | cons p rest ih =>
    obtain ⟨cr, w⟩ := p
    intro t0 s0 hdisj hnd hsum
    simp only [List.map_cons, List.nodup_cons] at hnd
    cases hgm : country.getMetric cr with
    | none =>
      simp only [scoreLoop, hgm]
      exact ih _ _ (fun q hq => hdisj q (List.mem_cons_of_mem _ hq)) hnd.2 hsum
    | some raw =>
      by_cases hb : belowMin mr cr raw
      · simp [scoreLoop, hgm, hb]
      · simp only [scoreLoop, hgm, hb, if_false, Bool.false_eq_true]
        have hins := dictInsert_not_mem
          ((if cr = "cost_of_living_index" then 100 - raw else raw) * w)
          (hdisj (cr, w) (List.mem_cons_self _ _))
        rw [hins]
        refine ih _ _ ?_ hnd.2 ?_
        · intro q hq
          simp only [List.map_append, List.map_cons, List.map_nil, List.mem_append,
            List.mem_singleton]
          rintro (hq1 | hq1)
          · exact hdisj q (List.mem_cons_of_mem _ hq) hq1
          · exact hnd.1 (hq1 ▸ List.mem_map_of_mem Prod.fst hq)
        · simp [hsum]

theorem scoreLoop_keys (country : CountryData) (mr : List (String × ℚ)) :
    ∀ (ws : List (String × ℚ)) (t0 : ℚ) (s0 : List (String × ℚ)),
      (∀ p ∈ ws, p.1 ∉ s0.map Prod.fst) → (ws.map Prod.fst).Nodup →
      (∀ p ∈ ws, ∀ v : ℚ, country.getMetric p.1 = some v →
        belowMin mr p.1 v = false) →
      (scoreLoop country mr ws t0 s0).2.map Prod.fst =
        s0.map Prod.fst ++
          (ws.filter fun p => (country.getMetric p.1).isSome).map Prod.fst := by
  intro ws
  induction ws with
  | nil =>
    intro t0 s0 _ _ _
    simp [scoreLoop]
  | cons p rest ih =>
    obtain ⟨cr, w⟩ := p
    intro t0 s0 hdisj hnd hok
    simp only [List.map_cons, List.nodup_cons] at hnd
    cases hgm : country.getMetric cr with
    | none =>
      simp only [scoreLoop, hgm, List.filter_cons, Option.isSome_none,
        Bool.false_eq_true, if_false]
      exact ih _ _ (fun q hq => hdisj q (List.mem_cons_of_mem _ hq)) hnd.2
        (fun q hq => hok q (List.mem_cons_of_mem _ hq))
    | some raw =>
      have hb : belowMin mr cr raw = false :=
        hok (cr, w) (List.mem_cons_self _ _) raw hgm
      simp only [scoreLoop, hgm, hb, if_false, Bool.false_eq_true, List.filter_cons,
        Option.isSome_some, if_true]
      have hins := dictInsert_not_mem
        ((if cr = "cost_of_living_index" then 100 - raw else raw) * w)
        (hdisj (cr, w) (List.mem_cons_self _ _))
      rw [hins]
      have hd2 : ∀ q ∈ rest, q.1 ∉ (s0 ++ [(cr, (if cr = "cost_of_living_index"
          then 100 - raw else raw) * w)]).map Prod.fst := by
        intro q hq
        simp only [List.map_append, List.map_cons, List.map_nil, List.mem_append,
          List.mem_singleton]
        rintro (hq1 | hq1)
        · exact hdisj q (List.mem_cons_of_mem _ hq) hq1
        · exact hnd.1 (hq1 ▸ List.mem_map_of_mem Prod.fst hq)
      have hrec := ih (t0 + (if cr = "cost_of_living_index" then 100 - raw else raw) * w)
        (s0 ++ [(cr, (if cr = "cost_of_living_index" then 100 - raw else raw) * w)])
        hd2 hnd.2 (fun q hq => hok q (List.mem_cons_of_mem _ hq))
      rw [hrec]
      simp [List.append_assoc]

/-- C9: the total returned by calculate_score equals the sum of the
weighted contributions of the returned breakdown (trivially so in the
disqualification case, where both are zero and empty), and when no
weighted metric disqualifies the entity the breakdown keys are exactly
the weighted metrics the entity possesses, in weight-iteration order.
The nodup hypothesis records that Python dict keys are unique. -/
theorem total_is_breakdown_sum
    (country : CountryData) (criteria : UserCriteria)
    (hnd : (criteria.weights.map Prod.fst).Nodup) :
    (calculate_score country criteria).1 =
      ((calculate_score country criteria).2.map Prod.snd).sum ∧
      (disqualifies country criteria = false →
        (calculate_score country criteria).2.map Prod.fst =
          (criteria.weights.filter
            fun p => (country.getMetric p.1).isSome).map Prod.fst) := by
  constructor
  · exact (scoreLoop_sum country _ criteria.weights 0 [] (by simp) hnd (by simp)).symm
  · intro hdq
    have hok : ∀ p ∈ criteria.weights, ∀ v : ℚ, country.getMetric p.1 = some v →
        belowMin criteria.min_requirements p.1 v = false := by
      intro q hq v hv
      have h2 := List.any_eq_false.mp hdq q hq
      simp only [hv] at h2
      simpa using h2
    have h := scoreLoop_keys country _ criteria.weights 0 [] (by simp) hnd hok
    simpa using h

/-- Witness for C9: Portugal under the default criteria; the default
weight keys are distinct and nothing disqualifies. -/
theorem total_is_breakdown_sum_witness :
    (calculate_score portugal defCrit).1 =
      ((calculate_score portugal defCrit).2.map Prod.snd).sum ∧
      (calculate_score portugal defCrit).2.map Prod.fst =
        (defCrit.weights.filter
          fun p => (portugal.getMetric p.1).isSome).map Prod.fst := by
  have hnd : (defCrit.weights.map Prod.fst).Nodup := by
    simp +decide [defCrit, UserCriteria.make, defaultWeights]
  have h := total_is_breakdown_sum portugal defCrit hnd
  refine ⟨h.1, h.2 ?_⟩
  norm_num +decide [disqualifies, defCrit, UserCriteria.make, defaultWeights,
    belowMin, dictGet, portugal, CountryData.getMetric]

/-- Predicate selecting ranked entries whose total score equals s,
used to state stability of the descending sort. -/
def scoreEq (s : ℚ) : CountryData × ℚ × List (String × ℚ) → Bool :=
  fun x => decide (x.2.1 = s)

theorem map_fst_filterMap_sublist {β : Type}
    (f : CountryData → Option (CountryData × β))
    (hf : ∀ c x, f c = some x → x.1 = c) :
    ∀ l : List CountryData, ((l.filterMap f).map Prod.fst).Sublist l := by
  intro l
  induction l with
  | nil => simp
  | cons hd tl ih =>
    rw [List.filterMap_cons]
    cases hfd : f hd with
    | none => exact ih.cons hd
    | some x =>
      rw [List.map_cons, hf hd x hfd]
      exact ih.cons₂ hd

theorem map_fst_scored_sublist (countries : List CountryData)
    (criteria : UserCriteria) :
    ((scoredCountries countries criteria).map Prod.fst).Sublist countries := by
  have h1 := map_fst_filterMap_sublist
    (fun country =>
      let sb := calculate_score country criteria
      if 0 < sb.1 then some (country, sb.1, sb.2) else none)
    (by
      intro c x hx
      by_cases hpos : 0 < (calculate_score c criteria).1
      · simp only [if_pos hpos] at hx
        injection hx with h
        rw [← h]
      · simp only [if_neg hpos] at hx
        exact Option.noConfusion hx)
    (filter_countries countries criteria)
  exact h1.trans (List.filter_sublist _)

theorem filter_scoreEq_sorted_eq (countries : List CountryData)
    (criteria : UserCriteria) (s : ℚ) :
    (sortedScored countries criteria).filter (scoreEq s) =
      (scoredCountries countries criteria).filter (scoreEq s) := by
  unfold sortedScored
  have hpw : ((scoredCountries countries criteria).filter (scoreEq s)).Pairwise
      (fun a b => scoreLE a b = true) := by
    apply List.pairwise_of_forall_mem_list
    intro a ha b hb
    have ha2 : a.2.1 = s := by
      simpa [scoreEq] using (List.mem_filter.mp ha).2
    have hb2 : b.2.1 = s := by
      simpa [scoreEq] using (List.mem_filter.mp hb).2
    simp [scoreLE, ha2, hb2]
  have hsub : ((scoredCountries countries criteria).filter (scoreEq s)).Sublist
      ((scoredCountries countries criteria).mergeSort scoreLE) :=
    List.sublist_mergeSort scoreLE_trans scoreLE_total hpw (List.filter_sublist _)
  have hsub2 := hsub.filter (scoreEq s)
  rw [List.filter_eq_self.mpr (fun a ha => (List.mem_filter.mp ha).2)] at hsub2
  have hperm : List.Perm
      (((scoredCountries countries criteria).mergeSort scoreLE).filter (scoreEq s))
      ((scoredCountries countries criteria).filter (scoreEq s)) :=
    (List.mergeSort_perm _ _).filter (scoreEq s)
  exact (hsub2.eq_of_length hperm.length_eq.symm).symm

/-- C10: entries of the recommendation output sharing any fixed total
score appear, once projected to their countries, as an order-preserving
subsequence of the entity collection: the stable sort keeps equal-score
candidates in collection order, so tie-breaking is deterministic. -/
theorem equal_scores_follow_collection_order
    (countries : List CountryData) (criteria : UserCriteria) (topN : Int) (s : ℚ) :
    (((recommend_countries countries criteria topN).filter
        (scoreEq s)).map Prod.fst).Sublist countries := by
  have h1 : ((recommend_countries countries criteria topN).filter
      (scoreEq s)).Sublist ((sortedScored countries criteria).filter (scoreEq s)) :=
    (pySlice_sublist _ _).filter _
  rw [filter_scoreEq_sorted_eq] at h1
  have h2 := h1.trans (List.filter_sublist _)
  have h3 := h2.map Prod.fst
  exact h3.trans (map_fst_scored_sublist countries criteria)

end Relocation
